import Mathlib

/-!
# Verification of go-nlp/dmmclust

A shallow embedding of the dmmclust library (Dirichlet Multinomial Mixture
clustering of short texts) together with proofs about its claims.

Conventions of the embedding:
* Go `float64` values are modelled as rationals (`ℚ`).
* Go `int` counters that may go negative (`Cluster.docs`, `Cluster.words`,
  cluster ids) are modelled as `ℤ`; sizes that are used as allocation
  lengths (`K`, `Vocabulary`, `Iter`) are modelled as `ℕ`.
* The sparse map `distro` (Go `map[int]float64`, absent key reads as `0`)
  is modelled as a total function `ℕ → ℚ`.
* The stateful `Sampler` interface (its `Sample` method advances an
  internal RNG) is modelled by explicit state passing over an arbitrary
  state type `σ`.
* Go `for` loops over slices become `List.foldl`; the bounded `for i := 0;
  i < conf.Iter; i++` loop of `FindClusters` becomes structural recursion
  on the remaining number of rounds.
* The repository contains a legacy single-threaded variant and the current
  variant (goroutine fan-out per cluster joined by a `WaitGroup`, `Sampler`
  interface).  The embedding follows the current variant; its per-cluster
  goroutines each write one independent slot before the join, so the scoring
  loop is a pure map over clusters.
-/

namespace Dmmclust

/-- `TokenSet` is a vector of word IDs for a document (Go `[]int`; IDs are
token identifiers in `[0, Vocabulary)`, modelled as `ℕ`). -/
abbrev TokenSet := List Nat

/-- The `Document` interface exposes `TokenSet()` and `Len()`.  The
repository's only implementation is `TokenSet` itself, where `TokenSet()` is
the identity and `Len()` is the list length, so documents are token sets. -/
abbrev Document := TokenSet

/-- `Cluster` holds only the metadata of a cluster: `id`, the number `docs`
of documents, the number `words` of words, and the sparse word distribution
`dist` (absent key = 0). -/
structure Cluster where
  id : Int
  docs : Int
  words : Int
  dist : Nat → ℚ

/-- `Freq` returns the frequency of the `i`th word (map read, default 0). -/
def Cluster.Freq (c : Cluster) (i : Nat) : ℚ := c.dist i

/-- `Docs` returns the number of documents in the cluster. -/
def Cluster.Docs (c : Cluster) : Int := c.docs

/-- `Wordcount` returns the number of words in the cluster. -/
def Cluster.Wordcount (c : Cluster) : Int := c.words

/-- `addDoc`: increments `docs`, adds the document length to `words` and
increments `dist[tok]` for each token occurrence (the lazy `make(distro)`
for a nil map is a no-op here because a nil map already reads as the zero
function). -/
def Cluster.addDoc (c : Cluster) (doc : Document) : Cluster :=
  { c with
    docs := c.docs + 1
    words := c.words + doc.length
    dist := doc.foldl (fun d tok => fun t => if t = tok then d t + 1 else d t) c.dist }

/-- `removeDoc`: decrements `docs`, subtracts the document length from
`words` and decrements `dist[tok]` for each token occurrence. -/
def Cluster.removeDoc (c : Cluster) (doc : Document) : Cluster :=
  { c with
    docs := c.docs - 1
    words := c.words - doc.length
    dist := doc.foldl (fun d tok => fun t => if t = tok then d t - 1 else d t) c.dist }

/-- The zero value of `Cluster` (what `make([]Cluster, K)` fills slots with). -/
def emptyCluster : Cluster := { id := 0, docs := 0, words := 0, dist := fun _ => 0 }

/-- `kvs` is a simple linear associative array (from the repository's kvs
file): a slice of `(key, val)` entries. -/
abbrev kvs := List (Nat × ℚ)

/-- `kvs.has`: linear scan, true on the first matching key. -/
def kvs.has : kvs → Nat → Bool
  | [], _ => false
  | n :: rest, key => if n.1 = key then true else kvs.has rest key

/-- `kvs.val`: linear scan, value of the first matching key, else `0.0`. -/
def kvs.val : kvs → Nat → ℚ
  | [], _ => 0
  | n :: rest, key => if n.1 = key then n.2 else kvs.val rest key

/-- `kvs.add`: appends a `(key, 0.0)` entry unless the key is present. -/
def kvs.add (a : kvs) (key : Nat) : kvs :=
  if kvs.has a key then a else a ++ [(key, 0)]

/-- `kvs.incr`: increments the value of every entry whose key matches (the
Go loop scans the whole slice without breaking). -/
def kvs.incr (a : kvs) (key : Nat) : kvs :=
  a.map (fun n => if n.1 = key then (n.1, n.2 + 1) else n)

/-- `sum` of a float slice (Go accumulates left to right from `0`). -/
def sum (a : List ℚ) : ℚ := a.foldl (· + ·) 0

/-- Numeric configuration fields.  In Go the scoring functions receive the
whole `Config` but read only these numeric fields (`K`, `Vocabulary`,
`Alpha`, `Beta`); passing them separately breaks the type-level recursion
between `Config` and `ScoringFn`. -/
structure ConfigParams where
  K : Nat
  Vocabulary : Nat
  Iter : Nat
  Alpha : ℚ
  Beta : ℚ

/-- `ScoringFn` takes a document and returns the probabilities of it
existing in each cluster. -/
abbrev ScoringFn := Document → List Document → List Cluster → ConfigParams → List ℚ

/-- The `Sampler` interface: `Sample` draws an index from a probability
vector, advancing an internal RNG state of type `σ`. -/
structure Sampler (σ : Type) where
  Sample : σ → List ℚ → Nat × σ

/-- `Config` for a run.  `Score` and `Sampler` are nil-able (Go interface /
function values), hence `Option`. -/
structure Config (σ : Type) extends ConfigParams where
  Score : Option ScoringFn
  Sampler : Option (Dmmclust.Sampler σ)

/-- `valid` checks the config for errors: `Score` first, then `Sampler`. -/
def Config.valid {σ : Type} (c : Config σ) : Option String :=
  match c.Score with
  | none => some "Expected Score to not be nil"
  | some _ =>
    match c.Sampler with
    | none => some "Expected Sampler to not be nil"
    | some _ => none

/-! ## Scoring functions (current variant) -/

/-- `algoDenominator`: `retVal *= wc + vocab*beta + i` for `i` from `0` to
`len(ts)-1`. -/
def algoDenominator (clust : Cluster) (ts : TokenSet) (beta vocab : ℚ) : ℚ :=
  (List.range ts.length).foldl
    (fun retVal (i : Nat) => retVal * (((clust.Wordcount : Int) : ℚ) + vocab * beta + (i : ℚ))) 1

/-- `algo3Numerator`: `retVal *= clust.Freq(tok) + beta` over the tokens. -/
def algo3Numerator (clust : Cluster) (ts : TokenSet) (beta : ℚ) : ℚ :=
  ts.foldl (fun retVal tok => retVal * (clust.Freq tok + beta)) 1

/-- `algo4Numerator`: builds the per-document frequency table `d` (one
`add`/`incr` pair per token occurrence), then, for every token occurrence
in `ts`, multiplies in the rising product
`prod = Π (clustFreq + beta + j)` for float `j = 0, 1, …` while `j < freq`.
The float-counter loop executes `⌈freq⌉₊` times, with `j` taking the values
`0, …, ⌈freq⌉₊ - 1`. -/
def algo4Numerator (clust : Cluster) (ts : TokenSet) (beta : ℚ) : ℚ :=
  let d : kvs := ts.foldl (fun d tok => kvs.incr (kvs.add d tok) tok) []
  ts.foldl
    (fun retVal tok =>
      let freq := kvs.val d tok
      let clustFreq := clust.Freq tok
      let prod := (List.range (Nat.ceil freq)).foldl
        (fun p (j : Nat) => p * (clustFreq + beta + (j : ℚ))) 1
      retVal * prod) 1

/-- The per-cluster unnormalized scores of `Algorithm3`: the body of the
per-cluster goroutines (each computes `p * num / denom` into its own slot;
the `WaitGroup` join makes this a pure map over clusters). -/
def rawScores3 (doc : Document) (docs : List Document) (clusters : List Cluster)
    (conf : ConfigParams) : List ℚ :=
  let docCount : ℚ := (docs.length : ℚ)
  let k : ℚ := (conf.K : ℚ)
  let vocab : ℚ := (conf.Vocabulary : ℚ)
  clusters.map (fun clust =>
    (((clust.Docs : Int) : ℚ) + conf.Alpha / (docCount - 1 + k * conf.Alpha))
      * algo3Numerator clust doc conf.Beta / algoDenominator clust doc conf.Beta vocab)

/-- The per-cluster unnormalized scores of `Algorithm4` (same shape, with
`algo4Numerator`). -/
def rawScores4 (doc : Document) (docs : List Document) (clusters : List Cluster)
    (conf : ConfigParams) : List ℚ :=
  let docCount : ℚ := (docs.length : ℚ)
  let k : ℚ := (conf.K : ℚ)
  let vocab : ℚ := (conf.Vocabulary : ℚ)
  clusters.map (fun clust =>
    (((clust.Docs : Int) : ℚ) + conf.Alpha / (docCount - 1 + k * conf.Alpha))
      * algo4Numerator clust doc conf.Beta / algoDenominator clust doc conf.Beta vocab)

/-- The common normalization tail of both scoring functions:
`norm := sum(retVal); if norm <= 0 { norm = 1 }; retVal[i] /= norm`. -/
def normalize (retVal : List ℚ) : List ℚ :=
  let norm := sum retVal
  let norm := if norm ≤ 0 then 1 else norm
  retVal.map (fun x => x / norm)

/-- `Algorithm3` is the implementation of Equation 3 in the original paper
(assumes each word occurs at most once in a document). -/
def Algorithm3 (doc : Document) (docs : List Document) (clusters : List Cluster)
    (conf : ConfigParams) : List ℚ :=
  normalize (rawScores3 doc docs clusters conf)

/-- `Algorithm4` is the implementation of Equation 4 in the original paper
(allows repeated words).  The global `ddd++` instrumentation counter has no
effect on the returned value and is not modelled. -/
def Algorithm4 (doc : Document) (docs : List Document) (clusters : List Cluster)
    (conf : ConfigParams) : List ℚ :=
  normalize (rawScores4 doc docs clusters conf)

/-! ## Clustering driver (`FindClusters`) -/

/-- Read a cluster slot (`state[z]`; indices are always in range in runs the
claims quantify over, so the default is never observed there). -/
def getC (state : List Cluster) (z : Nat) : Cluster := state.getD z emptyCluster

/-- The body of the initialization loop: draw a cluster with the sampler,
record it in `dz` and add the document to it. -/
def initStep {σ : Type} (smp : Sampler σ) (probs : List ℚ)
    (acc : List Cluster × List Nat × σ) (doc : Document) : List Cluster × List Nat × σ :=
  let (st, dz, s) := acc
  let (z, s') := smp.Sample s probs
  (st.set z ((getC st z).addDoc doc), dz ++ [z], s')

/-- The initialization phase of `FindClusters`: allocate `K` zero-valued
clusters, build the uniform vector `probs`, and for each document draw a
cluster with the sampler, record it in `dz` and add the document.  Returns
`(state, dz, rng)`. -/
def initClusters {σ : Type} (docs : List Document) (K : Nat) (smp : Sampler σ)
    (s0 : σ) : List Cluster × List Nat × σ :=
  let state := List.replicate K emptyCluster
  let probs : List ℚ := List.replicate K (1 / (K : ℚ))
  docs.foldl (initStep smp probs) (state, [], s0)

/-- The body of the per-document reassignment loop (index `j`, document
`doc`): remove the document from its current cluster, score against the
updated statistics, sample a new cluster, record the transfer, re-add. -/
def roundStep {σ : Type} (score : ScoringFn) (smp : Sampler σ) (conf : ConfigParams)
    (docs : List Document) (acc : List Cluster × List Nat × σ × Nat)
    (jdoc : Nat × Document) : List Cluster × List Nat × σ × Nat :=
  let (st, dz, s, transfers) := acc
  let j := jdoc.1
  let doc := jdoc.2
  let old := dz.getD j 0
  let st1 := st.set old ((getC st old).removeDoc doc)
  let p := score doc docs st1 conf
  let (z2, s') := smp.Sample s p
  let transfers' := if z2 ≠ old then transfers + 1 else transfers
  (st1.set z2 ((getC st1 z2).addDoc doc), dz.set j z2, s', transfers')

/-- One round of the iterate loop: each document in order is removed,
rescored, resampled and re-added.  Returns `(state, dz, rng, transfers)`. -/
def doRound {σ : Type} (score : ScoringFn) (smp : Sampler σ) (conf : ConfigParams)
    (docs : List Document) (st0 : List Cluster) (dz0 : List Nat) (s0 : σ) :
    List Cluster × List Nat × σ × Nat :=
  docs.enum.foldl (roundStep score smp conf docs) (st0, dz0, s0, 0)

/-- The per-round cluster count: the number of clusters with `docs > 0`. -/
def countClusters (state : List Cluster) : Nat :=
  state.foldl (fun n c => if c.docs > 0 then n + 1 else n) 0

/-- The iterate loop of `FindClusters`.  `fuel` is the number of rounds left
(`Iter - i`), `i` the index of the next round, `cc` the `clusterCount`
recorded after the previous round (initially `K`).  Breaks after a round
exactly when `transfers == 0 && clusterCount2 == clusterCount && i > 25`.
Returns the final `(state, dz, rng)` and the number of rounds executed. -/
def iterateAux {σ : Type} (score : ScoringFn) (smp : Sampler σ) (conf : ConfigParams)
    (docs : List Document) :
    Nat → Nat → Nat → List Cluster → List Nat → σ → List Cluster × List Nat × σ × Nat
  | 0, i, _, st, dz, s => (st, dz, s, i)
  | fuel + 1, i, cc, st, dz, s =>
    match doRound score smp conf docs st dz s with
    | (st', dz', s', tr) =>
      let cc2 := countClusters st'
      if tr = 0 ∧ cc2 = cc ∧ 25 < i then (st', dz', s', i + 1)
      else iterateAux score smp conf docs fuel (i + 1) cc2 st' dz' s'

/-- One step of the relabeling loop: copy the cluster's statistics, look the
internal cluster id up in `reindex` (sentinel `-1` = unseen), assigning the
next fresh dense id on first appearance. -/
def relabelStep (state : List Cluster) (acc : List Cluster × List Int × Int)
    (clusterID : Nat) : List Cluster × List Int × Int :=
  let (retVal, reindex, maxID) := acc
  let cid0 := reindex.getD clusterID (-1)
  if cid0 < 0 then
    (retVal ++ [{ getC state clusterID with id := maxID }],
      reindex.set clusterID maxID, maxID + 1)
  else
    (retVal ++ [{ getC state clusterID with id := cid0 }], reindex, maxID)

/-- The final relabeling pass of `FindClusters`: one output snapshot per
document, with internal cluster ids remapped to a dense first-appearance
sequence `0, 1, 2, …`. -/
def relabel (state : List Cluster) (K : Nat) (dz : List Nat) : List Cluster :=
  (dz.foldl (relabelStep state) ([], List.replicate K (-1), 0)).1

/-- The clustering work of `FindClusters` after validation: initialization
followed by the iterate loop; returns the final state and assignment
vector. -/
def runClustering {σ : Type} (score : ScoringFn) (smp : Sampler σ)
    (conf : ConfigParams) (docs : List Document) (s0 : σ) : List Cluster × List Nat :=
  match initClusters docs conf.K smp s0 with
  | (st, dz, s) =>
    match iterateAux score smp conf docs conf.Iter 0 conf.K st dz s with
    | (st', dz', _, _) => (st', dz')

/-- `FindClusters` is the main function to find clusters.  The two error
branches inline `Config.valid` (Go checks `Score` first, then `Sampler`). -/
def FindClusters {σ : Type} (docs : List Document) (conf : Config σ) (s0 : σ) :
    Except String (List Cluster) :=
  match conf.Score, conf.Sampler with
  | none, _ => Except.error "Expected Score to not be nil"
  | some _, none => Except.error "Expected Sampler to not be nil"
  | some score, some smp =>
    match runClustering score smp conf.toConfigParams docs s0 with
    | (st', dz') => Except.ok (relabel st' conf.K dz')

/-! ## Trajectory view of the iterate loop (for the convergence claim) -/

/-- The loop state `(state, dz, rng)` after `n` rounds, had the loop run
without its early-stop break. -/
def roundsState {σ : Type} (score : ScoringFn) (smp : Sampler σ) (conf : ConfigParams)
    (docs : List Document) (st0 : List Cluster) (dz0 : List Nat) (s0 : σ) :
    Nat → List Cluster × List Nat × σ
  | 0 => (st0, dz0, s0)
  | n + 1 =>
    match roundsState score smp conf docs st0 dz0 s0 n with
    | (st, dz, s) =>
      match doRound score smp conf docs st dz s with
      | (st', dz', s', _) => (st', dz', s')

/-- The number of documents transferred during round `n` (0-based). -/
def transfersAt {σ : Type} (score : ScoringFn) (smp : Sampler σ) (conf : ConfigParams)
    (docs : List Document) (st0 : List Cluster) (dz0 : List Nat) (s0 : σ) (n : Nat) : Nat :=
  match roundsState score smp conf docs st0 dz0 s0 n with
  | (st, dz, s) => (doRound score smp conf docs st dz s).2.2.2

/-- The nonempty-cluster count observed at the end of round `n` (0-based). -/
def countAfter {σ : Type} (score : ScoringFn) (smp : Sampler σ) (conf : ConfigParams)
    (docs : List Document) (st0 : List Cluster) (dz0 : List Nat) (s0 : σ) (n : Nat) : Nat :=
  countClusters (roundsState score smp conf docs st0 dz0 s0 (n + 1)).1

/-- The `clusterCount` variable as recorded when round `n` begins: `K`
before the first round, otherwise the count after the previous round. -/
def countBefore {σ : Type} (score : ScoringFn) (smp : Sampler σ) (conf : ConfigParams)
    (docs : List Document) (st0 : List Cluster) (dz0 : List Nat) (s0 : σ) :
    Nat → Nat
  | 0 => conf.K
  | n + 1 => countAfter score smp conf docs st0 dz0 s0 n

/-! ## Spec-side formulas

These definitions transcribe the formulas as the specification states them;
the claim theorems compare the embedded code against them. -/

/-- Spec formula: `prior(i) = docs[i] + Alpha / (totalDocs - 1 + K * Alpha)`
(the parenthesization is the spec's own). -/
def priorSpec (docs : List Document) (conf : ConfigParams) (clust : Cluster) : ℚ :=
  ((clust.Docs : Int) : ℚ) + conf.Alpha / ((docs.length : ℚ) - 1 + (conf.K : ℚ) * conf.Alpha)

/-- Spec formula: `numerator(cluster) = Π over tokens t in doc of
(Freq(cluster, t) + Beta)`. -/
def numerator3Spec (clust : Cluster) (ts : TokenSet) (beta : ℚ) : ℚ :=
  (ts.map (fun tok => clust.Freq tok + beta)).prod

/-- Spec formula: `denominator(cluster) = Π for j = 0 .. len(doc)-1 of
(Wordcount(cluster) + Vocabulary*Beta + j)`. -/
def denominatorSpec (clust : Cluster) (ts : TokenSet) (beta vocab : ℚ) : ℚ :=
  ((List.range ts.length).map
    (fun j : Nat => ((clust.Wordcount : Int) : ℚ) + vocab * beta + (j : ℚ))).prod

/-- Left fold of the distinct values of a list in first-appearance order. -/
def uStep (acc : List Nat) (z : Nat) : List Nat :=
  if z ∈ acc then acc else acc ++ [z]

/-- The distinct values of a list, in order of first appearance. -/
def uniqueInOrder (xs : List Nat) : List Nat := xs.foldl uStep []

/-- The index of the first occurrence of `z` in a list (length if absent). -/
def firstIndex : List Nat → Nat → Nat
  | [], _ => 0
  | a :: rest, z => if a = z then 0 else firstIndex rest z + 1

/-- Spec formula for Algorithm4's numerator: one rising product
`Π for j = 0 .. freq(t)-1 of (Freq(cluster, t) + Beta + j)` per *distinct*
token `t` of the document, where `freq(t)` is the token's count in the
document. -/
def numerator4Spec (clust : Cluster) (ts : TokenSet) (beta : ℚ) : ℚ :=
  ((uniqueInOrder ts).map (fun t =>
    ((List.range (ts.count t)).map (fun j : Nat => clust.Freq t + beta + (j : ℚ))).prod)).prod

/-! ## Concrete sample values (used by the claim witnesses) -/

/-- A cluster holding one empty document. -/
def sampleCluster : Cluster := { id := 0, docs := 1, words := 0, dist := fun _ => 0 }

/-- Degenerate but well-formed numeric parameters. -/
def sampleParams : ConfigParams := { K := 1, Vocabulary := 0, Iter := 0, Alpha := 0, Beta := 0 }

/-- A deterministic sampler that always chooses cluster `0`. -/
def sampleSmp : Sampler Unit := { Sample := fun s _ => (0, s) }

/-- A trivial scoring function. -/
def sampleScore : ScoringFn := fun _ _ clusters _ => clusters.map (fun _ => 1)

/-- A valid config built from the sample pieces. -/
def sampleConfig : Config Unit :=
  { K := 1, Vocabulary := 0, Iter := 0, Alpha := 0, Beta := 0,
    Score := some sampleScore, Sampler := some sampleSmp }

/-- A config with both `Score` and `Sampler` nil. -/
def nilConfig : Config Unit :=
  { K := 1, Vocabulary := 0, Iter := 0, Alpha := 0, Beta := 0,
    Score := none, Sampler := none }

/-! ## General lemmas about the embedded loops -/

theorem foldl_mul_eq_prod {α : Type} (f : α → ℚ) (xs : List α) (a : ℚ) :
    xs.foldl (fun acc x => acc * f x) a = a * (xs.map f).prod := by
  induction xs generalizing a with
  | nil => simp
  | cons x xs ih => simp [ih (a * f x), mul_assoc]

theorem sum_eq_listSum (l : List ℚ) : sum l = l.sum := by
  have h : ∀ (l : List ℚ) (a : ℚ), l.foldl (· + ·) a = a + l.sum := by
    intro l
    induction l with
    | nil => intro a; simp
    | cons x xs ih => intro a; simp [ih, add_assoc]
  simpa using h l 0

theorem sum_map_div (l : List ℚ) (s : ℚ) : sum (l.map (fun x => x / s)) = sum l / s := by
  simp only [sum_eq_listSum]
  induction l with
  | nil => simp
  | cons x xs ih => simp [ih, add_div]

/-- The normalization tail: a positive raw sum is normalized to total 1. -/
theorem normalize_sum_of_pos (l : List ℚ) (h : 0 < sum l) : sum (normalize l) = 1 := by
  have hne : sum l ≠ 0 := ne_of_gt h
  have hnotle : ¬ sum l ≤ 0 := not_le.mpr h
  simp only [normalize, hnotle, if_false, sum_map_div]
  exact div_self hne

/-- The normalization tail: a non-positive raw sum divides by `1` instead,
returning the raw scores unscaled. -/
theorem normalize_of_nonpos (l : List ℚ) (h : sum l ≤ 0) : normalize l = l := by
  simp only [normalize, h, if_true]
  simp

/-! ## Lemmas about the `kvs` associative array -/

theorem kvs_has_append (d e : kvs) (t : Nat) :
    kvs.has (d ++ e) t = (kvs.has d t || kvs.has e t) := by
  induction d with
  | nil => simp [kvs.has]
  | cons n rest ih =>
    by_cases h : n.1 = t <;> simp [kvs.has, h, ih]

theorem kvs_val_append_zero (d : kvs) (tok t : Nat) :
    kvs.val (d ++ [(tok, 0)]) t = kvs.val d t := by
  induction d with
  | nil => by_cases h : tok = t <;> simp [kvs.val, h]
  | cons n rest ih =>
    by_cases h : n.1 = t <;> simp [kvs.val, h, ih]

theorem kvs_val_add (d : kvs) (tok t : Nat) :
    kvs.val (kvs.add d tok) t = kvs.val d t := by
  unfold kvs.add
  split
  · rfl
  · exact kvs_val_append_zero d tok t

theorem kvs_has_add_self (d : kvs) (tok : Nat) :
    kvs.has (kvs.add d tok) tok = true := by
  unfold kvs.add
  by_cases h : kvs.has d tok
  · simp [h]
  · simp [h, kvs_has_append, kvs.has]

theorem kvs_val_incr (d : kvs) (tok t : Nat) :
    kvs.val (kvs.incr d tok) t =
      kvs.val d t + if t = tok ∧ kvs.has d tok = true then 1 else 0 := by
  induction d with
  | nil => simp [kvs.incr, kvs.val, kvs.has]
  | cons n rest ih =>
    simp only [kvs.incr, List.map_cons] at ih ⊢
    by_cases hn : n.1 = tok
    · by_cases ht : n.1 = t
      · have htt : t = tok := by rw [← ht, hn]
        simp [kvs.val, kvs.has, hn, ht, htt]
      · have h2 : ¬ tok = t := fun he => ht (by rw [hn, he])
        have htt : ¬ t = tok := fun he => h2 he.symm
        simp [kvs.val, kvs.has, hn, ht, h2, htt, ih]
    · by_cases ht : n.1 = t
      · have htt : ¬ t = tok := fun he => hn (by rw [ht, he])
        simp [kvs.val, kvs.has, hn, ht, htt]
      · simp [kvs.val, kvs.has, hn, ht, ih]

theorem kvs_build_val (ts : List Nat) (t : Nat) :
    ∀ d : kvs, kvs.val (ts.foldl (fun d tok => kvs.incr (kvs.add d tok) tok) d) t
      = kvs.val d t + (ts.count t : ℚ) := by
  induction ts with
  | nil => intro d; simp
  | cons tok rest ih =>
    intro d
    rw [List.foldl_cons, ih]
    have hstep : kvs.val (kvs.incr (kvs.add d tok) tok) t
        = kvs.val d t + if t = tok then 1 else 0 := by
      rw [kvs_val_incr, kvs_val_add, kvs_has_add_self]
      simp
    rw [hstep, List.count_cons]
    by_cases h : t = tok
    · subst h
      simp only [beq_self_eq_true, if_true, if_pos rfl]
      push_cast
      ring
    · have hne : (tok == t) = false := beq_eq_false_iff_ne.mpr (Ne.symm h)
      simp only [hne, if_neg h, Bool.false_eq_true, if_false]
      push_cast
      ring

/-! ## Scoring-function lemmas -/

theorem algo3Numerator_eq_spec (clust : Cluster) (ts : TokenSet) (beta : ℚ) :
    algo3Numerator clust ts beta = numerator3Spec clust ts beta := by
  unfold algo3Numerator numerator3Spec
  rw [foldl_mul_eq_prod (fun tok => clust.Freq tok + beta), one_mul]

theorem algoDenominator_eq_spec (clust : Cluster) (ts : TokenSet) (beta vocab : ℚ) :
    algoDenominator clust ts beta vocab = denominatorSpec clust ts beta vocab := by
  unfold algoDenominator denominatorSpec
  rw [foldl_mul_eq_prod
    (fun j : Nat => ((clust.Wordcount : Int) : ℚ) + vocab * beta + (j : ℚ)), one_mul]

theorem algo4Numerator_eq_of_nodup (clust : Cluster) (ts : TokenSet) (beta : ℚ)
    (h : ts.Nodup) : algo4Numerator clust ts beta = algo3Numerator clust ts beta := by
  simp only [algo4Numerator, algo3Numerator]
  rw [foldl_mul_eq_prod
      (fun tok => (List.range
          (Nat.ceil (kvs.val (ts.foldl (fun d tok => kvs.incr (kvs.add d tok) tok) []) tok))).foldl
        (fun p (j : Nat) => p * (clust.Freq tok + beta + (j : ℚ))) 1),
    foldl_mul_eq_prod (fun tok => clust.Freq tok + beta), one_mul, one_mul]
  apply congrArg List.prod
  apply List.map_congr_left
  intro tok htok
  have hcount : ts.count tok = 1 := List.count_eq_one_of_mem h htok
  have hval : kvs.val (ts.foldl (fun d tok => kvs.incr (kvs.add d tok) tok) []) tok = 1 := by
    rw [kvs_build_val ts tok []]
    simp [kvs.val, hcount]
  rw [hval]
  simp [List.range_succ]

/-! ## Claim theorems for the scoring functions -/

/-- Claim C1: `Algorithm3` returns, before normalization, for each cluster
the score `prior * numerator / denominator` with
`prior = docs + Alpha / (totalDocs - 1 + K*Alpha)`,
`numerator = Π over tokens t of (Freq(cluster,t) + Beta)` and
`denominator = Π for j = 0 .. len(doc)-1 of (Wordcount + Vocabulary*Beta + j)`;
its return value is the normalization of that score vector. -/
theorem algorithm3_matches_spec (doc : Document) (docs : List Document)
    (clusters : List Cluster) (conf : ConfigParams) :
    Algorithm3 doc docs clusters conf =
      normalize (clusters.map (fun clust =>
        priorSpec docs conf clust * numerator3Spec clust doc conf.Beta /
          denominatorSpec clust doc conf.Beta (conf.Vocabulary : ℚ))) := by
  unfold Algorithm3 rawScores3
  apply congrArg normalize
  apply List.map_congr_left
  intro clust _
  rw [algo3Numerator_eq_spec, algoDenominator_eq_spec]
  rfl

/-- Claim C2: on a document without repeated tokens, `Algorithm3` and
`Algorithm4` return the same probability vector. -/
theorem algorithm3_eq_algorithm4_of_nodup (doc : Document) (docs : List Document)
    (clusters : List Cluster) (conf : ConfigParams) (h : doc.Nodup) :
    Algorithm3 doc docs clusters conf = Algorithm4 doc docs clusters conf := by
  unfold Algorithm3 Algorithm4 rawScores3 rawScores4
  apply congrArg normalize
  apply List.map_congr_left
  intro clust _
  rw [algo4Numerator_eq_of_nodup clust doc conf.Beta h]

/-- Witness for C2 at the concrete duplicate-free document `[0, 1]`. -/
theorem algorithm3_eq_algorithm4_of_nodup_witness :
    List.Nodup [0, 1] ∧
      Algorithm3 [0, 1] [[0, 1]] [emptyCluster] sampleParams =
        Algorithm4 [0, 1] [[0, 1]] [emptyCluster] sampleParams :=
  ⟨by decide, algorithm3_eq_algorithm4_of_nodup [0, 1] [[0, 1]] [emptyCluster] sampleParams
    (by decide)⟩

/-- Claim C4: whenever the raw per-cluster scores have a positive sum, the
returned vector sums to exactly 1; when the raw sum is non-positive the
divisor is 1 and the raw scores are returned unscaled — for `Algorithm3`
and `Algorithm4` alike. -/
theorem algorithms_return_distribution (doc : Document) (docs : List Document)
    (clusters : List Cluster) (conf : ConfigParams) :
    (0 < sum (rawScores3 doc docs clusters conf) →
      sum (Algorithm3 doc docs clusters conf) = 1) ∧
    (sum (rawScores3 doc docs clusters conf) ≤ 0 →
      Algorithm3 doc docs clusters conf = rawScores3 doc docs clusters conf) ∧
    (0 < sum (rawScores4 doc docs clusters conf) →
      sum (Algorithm4 doc docs clusters conf) = 1) ∧
    (sum (rawScores4 doc docs clusters conf) ≤ 0 →
      Algorithm4 doc docs clusters conf = rawScores4 doc docs clusters conf) :=
  ⟨fun h => normalize_sum_of_pos _ h, fun h => normalize_of_nonpos _ h,
    fun h => normalize_sum_of_pos _ h, fun h => normalize_of_nonpos _ h⟩

/-- Witness for C4: a concrete positive-sum case sums to 1, and a concrete
non-positive-sum case (no clusters) returns the raw scores unscaled. -/
theorem algorithms_return_distribution_witness :
    sum (Algorithm3 [] [[]] [sampleCluster] sampleParams) = 1 ∧
      Algorithm4 [] [[]] [] sampleParams = rawScores4 [] [[]] [] sampleParams :=
  ⟨(algorithms_return_distribution [] [[]] [sampleCluster] sampleParams).1
      (by simp [rawScores3, algo3Numerator, algoDenominator, sum, sampleCluster,
        sampleParams, Cluster.Docs]),
    (algorithms_return_distribution [] [[]] [] sampleParams).2.2.2
      (by simp [rawScores4, sum])⟩

/-- Claim C6 (code bug): on the repeated-token document `[0, 0]` with empty
cluster statistics and `Beta = 1`, `algo4Numerator` multiplies the rising
product once per *occurrence* and returns `4`, while the documented
per-*distinct*-token formula gives `2`. -/
theorem algo4Numerator_counts_occurrences :
    algo4Numerator emptyCluster [0, 0] 1 = 4 ∧
      numerator4Spec emptyCluster [0, 0] 1 = 2 := by
  constructor
  · norm_num [algo4Numerator, kvs.add, kvs.has, kvs.incr, kvs.val, emptyCluster,
      Cluster.Freq, List.range_succ]
  · norm_num [numerator4Spec, uniqueInOrder, uStep, emptyCluster, Cluster.Freq,
      List.count_cons, List.range_succ]

/-- Claim C7: removing a document and immediately re-adding it to the same
cluster leaves the cluster's observable statistics (`docs`, `words`, and
`Freq(t)` for every token `t`) unchanged. -/
theorem removeDoc_addDoc_roundtrip (c : Cluster) (doc : Document) :
    ((c.removeDoc doc).addDoc doc).Docs = c.Docs ∧
    ((c.removeDoc doc).addDoc doc).Wordcount = c.Wordcount ∧
    ∀ t, ((c.removeDoc doc).addDoc doc).Freq t = c.Freq t := by
  refine ⟨?_, ?_, ?_⟩
  · simp [Cluster.addDoc, Cluster.removeDoc, Cluster.Docs]
  · simp [Cluster.addDoc, Cluster.removeDoc, Cluster.Wordcount]
  · intro t
    have hinc : ∀ (ts : List Nat) (d : Nat → ℚ),
        (ts.foldl (fun d tok => fun x => if x = tok then d x + 1 else d x) d) t
          = d t + (ts.count t : ℚ) := by
      intro ts
      induction ts with
      | nil => intro d; simp
      | cons tok rest ih =>
        intro d
        rw [List.foldl_cons, ih, List.count_cons]
        by_cases h : t = tok
        · subst h
          simp only [if_pos rfl, beq_self_eq_true, if_true]
          push_cast
          ring
        · have hne : (tok == t) = false := beq_eq_false_iff_ne.mpr (Ne.symm h)
          simp only [if_neg h, hne, Bool.false_eq_true, if_false]
          push_cast
          ring
    have hdec : ∀ (ts : List Nat) (d : Nat → ℚ),
        (ts.foldl (fun d tok => fun x => if x = tok then d x - 1 else d x) d) t
          = d t - (ts.count t : ℚ) := by
      intro ts
      induction ts with
      | nil => intro d; simp
      | cons tok rest ih =>
        intro d
        rw [List.foldl_cons, ih, List.count_cons]
        by_cases h : t = tok
        · subst h
          simp only [if_pos rfl, beq_self_eq_true, if_true]
          push_cast
          ring
        · have hne : (tok == t) = false := beq_eq_false_iff_ne.mpr (Ne.symm h)
          simp only [if_neg h, hne, Bool.false_eq_true, if_false]
          push_cast
          ring
    simp only [Cluster.addDoc, Cluster.removeDoc, Cluster.Freq]
    rw [hinc, hdec]
    ring

/-! ## Driver lemmas: validation and the empty corpus -/

/-- Claim C8: with a nil `Score` or nil `Sampler`, `FindClusters` returns an
error (and no result), and does so independently of the documents and of the
sampler seed — no clustering work happens. -/
theorem findClusters_invalid_config {σ : Type} (docs : List Document) (conf : Config σ)
    (s0 : σ) (h : conf.Score = none ∨ conf.Sampler = none) :
    (∃ e, FindClusters docs conf s0 = Except.error e) ∧
    ∀ (docs' : List Document) (s1 : σ),
      FindClusters docs conf s0 = FindClusters docs' conf s1 := by
  have key : ∀ (ds : List Document) (s : σ),
      FindClusters ds conf s = Except.error
        (match conf.Score with
          | none => "Expected Score to not be nil"
          | some _ => "Expected Sampler to not be nil") := by
    intro ds s
    unfold FindClusters
    rcases h with h | h
    · rw [h]
    · rw [h]
      cases hs : conf.Score <;> rfl
  exact ⟨⟨_, key docs s0⟩, fun ds' s1 => (key docs s0).trans (key ds' s1).symm⟩

/-- Witness for C8 at a concrete config with both collaborators nil. -/
theorem findClusters_invalid_config_witness :
    ∃ e, FindClusters [] nilConfig () = Except.error e :=
  (findClusters_invalid_config [] nilConfig () (Or.inl rfl)).1

theorem doRound_nil {σ : Type} (score : ScoringFn) (smp : Sampler σ) (conf : ConfigParams)
    (st : List Cluster) (dz : List Nat) (s : σ) :
    doRound score smp conf [] st dz s = (st, dz, s, 0) := rfl

theorem iterateAux_nil_docs {σ : Type} (score : ScoringFn) (smp : Sampler σ)
    (conf : ConfigParams) :
    ∀ (fuel i cc : Nat) (st : List Cluster) (dz : List Nat) (s : σ),
      ∃ s' r, iterateAux score smp conf [] fuel i cc st dz s = (st, dz, s', r) := by
  intro fuel
  induction fuel with
  | zero => intro i cc st dz s; exact ⟨s, i, rfl⟩
  | succ fuel ih =>
    intro i cc st dz s
    simp only [iterateAux, doRound_nil]
    split
    · exact ⟨s, i + 1, rfl⟩
    · exact ih (i + 1) (countClusters st) st dz s

/-- Claim C10: on the empty document list a valid config yields a nil error
and an empty result, independently of the scoring function (which is never
consulted). -/
theorem findClusters_empty_docs {σ : Type} (conf : Config σ) (s0 : σ)
    (score : ScoringFn) (smp : Sampler σ)
    (hS : conf.Score = some score) (hP : conf.Sampler = some smp) (_hK : 1 ≤ conf.K) :
    FindClusters ([] : List Document) conf s0 = Except.ok [] ∧
    ∀ g : ScoringFn,
      FindClusters ([] : List Document) { conf with Score := some g } s0 = Except.ok [] := by
  have key : ∀ (g : ScoringFn) (c : Config σ), c.Score = some g → c.Sampler = some smp →
      FindClusters ([] : List Document) c s0 = Except.ok [] := by
    intro g c hg hsmp
    unfold FindClusters
    rw [hg, hsmp]
    dsimp only
    unfold runClustering
    have hinit : initClusters ([] : List Document) c.K smp s0
        = (List.replicate c.K emptyCluster, [], s0) := rfl
    rw [hinit]
    dsimp only
    obtain ⟨s', r, hiter⟩ := iterateAux_nil_docs g smp c.toConfigParams c.Iter 0 c.K
      (List.replicate c.K emptyCluster) [] s0
    rw [hiter]
    rfl
  exact ⟨key score conf hS hP, fun g => key g { conf with Score := some g } rfl hP⟩

/-- Witness for C10 at the concrete sample config. -/
theorem findClusters_empty_docs_witness :
    FindClusters ([] : List Document) sampleConfig () = Except.ok [] :=
  (findClusters_empty_docs sampleConfig () sampleScore sampleSmp rfl rfl (le_refl 1)).1

/-! ## The iterate loop against its round trajectory -/

theorem iterateAux_spec {σ : Type} (score : ScoringFn) (smp : Sampler σ)
    (conf : ConfigParams) (docs : List Document) (st0 : List Cluster) (dz0 : List Nat)
    (s0 : σ) :
    ∀ (fuel i cc : Nat),
      cc = countBefore score smp conf docs st0 dz0 s0 i →
      ∃ r, iterateAux score smp conf docs fuel i cc
          (roundsState score smp conf docs st0 dz0 s0 i).1
          (roundsState score smp conf docs st0 dz0 s0 i).2.1
          (roundsState score smp conf docs st0 dz0 s0 i).2.2 =
        ((roundsState score smp conf docs st0 dz0 s0 r).1,
         (roundsState score smp conf docs st0 dz0 s0 r).2.1,
         (roundsState score smp conf docs st0 dz0 s0 r).2.2, r) ∧
      i ≤ r ∧ r ≤ i + fuel ∧
      (r < i + fuel →
        0 < r ∧ transfersAt score smp conf docs st0 dz0 s0 (r - 1) = 0 ∧
        countAfter score smp conf docs st0 dz0 s0 (r - 1)
          = countBefore score smp conf docs st0 dz0 s0 (r - 1) ∧
        25 < r - 1) := by
  intro fuel
  induction fuel with
  | zero =>
    intro i cc hcc
    exact ⟨i, rfl, le_refl i, Nat.le_add_right i 0, fun h => absurd h (by omega)⟩
  | succ fuel ih =>
    intro i cc hcc
    have hdo : doRound score smp conf docs
        (roundsState score smp conf docs st0 dz0 s0 i).1
        (roundsState score smp conf docs st0 dz0 s0 i).2.1
        (roundsState score smp conf docs st0 dz0 s0 i).2.2 =
        ((roundsState score smp conf docs st0 dz0 s0 (i + 1)).1,
         (roundsState score smp conf docs st0 dz0 s0 (i + 1)).2.1,
         (roundsState score smp conf docs st0 dz0 s0 (i + 1)).2.2,
         transfersAt score smp conf docs st0 dz0 s0 i) := rfl
    simp only [iterateAux, hdo]
    have hcnt : countClusters (roundsState score smp conf docs st0 dz0 s0 (i + 1)).1
        = countAfter score smp conf docs st0 dz0 s0 i := rfl
    split
    · rename_i hbreak
      obtain ⟨htr, hcc2, hi⟩ := hbreak
      refine ⟨i + 1, rfl, Nat.le_succ i, by omega, fun _ => ?_⟩
      refine ⟨Nat.succ_pos i, ?_, ?_, ?_⟩
      · simpa using htr
      · have : countAfter score smp conf docs st0 dz0 s0 i = cc := by
          rw [← hcnt, hcc2]
        simpa using this.trans hcc
      · simpa using hi
    · obtain ⟨r, heq, hle, hub, himp⟩ := ih (i + 1)
        (countClusters (roundsState score smp conf docs st0 dz0 s0 (i + 1)).1)
        (by rw [hcnt]; rfl)
      exact ⟨r, heq, by omega, by omega, fun h => himp (by omega)⟩

/-- Claim C5: the iterate loop runs at most `Iter` rounds; when it stops
early after `r < Iter` rounds, the breaking round transferred zero
documents, left the nonzero-document cluster count equal to the recorded
previous count, and at least 26 rounds had elapsed. -/
theorem iterate_loop_convergence {σ : Type} (score : ScoringFn) (smp : Sampler σ)
    (conf : ConfigParams) (docs : List Document) (st0 : List Cluster) (dz0 : List Nat)
    (s0 : σ) :
    ∃ r, iterateAux score smp conf docs conf.Iter 0 conf.K st0 dz0 s0 =
        ((roundsState score smp conf docs st0 dz0 s0 r).1,
         (roundsState score smp conf docs st0 dz0 s0 r).2.1,
         (roundsState score smp conf docs st0 dz0 s0 r).2.2, r) ∧
      r ≤ conf.Iter ∧
      (r < conf.Iter →
        26 ≤ r ∧
        transfersAt score smp conf docs st0 dz0 s0 (r - 1) = 0 ∧
        countAfter score smp conf docs st0 dz0 s0 (r - 1)
          = countBefore score smp conf docs st0 dz0 s0 (r - 1)) := by
  obtain ⟨r, heq, _, hub, himp⟩ :=
    iterateAux_spec score smp conf docs st0 dz0 s0 conf.Iter 0 conf.K rfl
  refine ⟨r, heq, by omega, fun h => ?_⟩
  obtain ⟨hpos, htr, hcc, hi⟩ := himp (by omega)
  exact ⟨by omega, htr, hcc⟩

/-- Witness for C5 at a concrete loop instance. -/
theorem iterate_loop_convergence_witness :
    ∃ r, iterateAux sampleScore sampleSmp sampleParams [] sampleParams.Iter 0
        sampleParams.K [] [] () =
        ((roundsState sampleScore sampleSmp sampleParams [] [] [] () r).1,
         (roundsState sampleScore sampleSmp sampleParams [] [] [] () r).2.1,
         (roundsState sampleScore sampleSmp sampleParams [] [] [] () r).2.2, r) ∧
      r ≤ sampleParams.Iter ∧
      (r < sampleParams.Iter →
        26 ≤ r ∧
        transfersAt sampleScore sampleSmp sampleParams [] [] [] () (r - 1) = 0 ∧
        countAfter sampleScore sampleSmp sampleParams [] [] [] () (r - 1)
          = countBefore sampleScore sampleSmp sampleParams [] [] [] () (r - 1)) :=
  iterate_loop_convergence sampleScore sampleSmp sampleParams [] [] [] ()

/-! ## First-appearance order: `uniqueInOrder` and `firstIndex` -/

theorem foldl_uStep_extends (ys : List Nat) :
    ∀ acc : List Nat, ∃ t, ys.foldl uStep acc = acc ++ t := by
  induction ys with
  | nil => intro acc; exact ⟨[], by simp⟩
  | cons z rest ih =>
    intro acc
    rw [List.foldl_cons]
    obtain ⟨t, ht⟩ := ih (uStep acc z)
    by_cases hz : z ∈ acc
    · have hstep : uStep acc z = acc := by unfold uStep; rw [if_pos hz]
      rw [hstep] at ht ⊢
      exact ⟨t, ht⟩
    · have hstep : uStep acc z = acc ++ [z] := by unfold uStep; rw [if_neg hz]
      rw [hstep] at ht ⊢
      exact ⟨z :: t, by rw [ht, List.append_assoc]; rfl⟩

theorem uniqueInOrder_append (xs ys : List Nat) :
    uniqueInOrder (xs ++ ys) = ys.foldl uStep (uniqueInOrder xs) := by
  unfold uniqueInOrder
  rw [List.foldl_append]

theorem uniqueInOrder_extends (xs ys : List Nat) :
    ∃ t, uniqueInOrder (xs ++ ys) = uniqueInOrder xs ++ t := by
  rw [uniqueInOrder_append]
  exact foldl_uStep_extends ys (uniqueInOrder xs)

theorem uniqueInOrder_snoc (xs : List Nat) (z : Nat) :
    uniqueInOrder (xs ++ [z]) = uStep (uniqueInOrder xs) z := by
  rw [uniqueInOrder_append]
  rfl

theorem mem_foldl_uStep (ys : List Nat) :
    ∀ (acc : List Nat) (c : Nat), c ∈ ys.foldl uStep acc ↔ c ∈ acc ∨ c ∈ ys := by
  induction ys with
  | nil => intro acc c; simp
  | cons z rest ih =>
    intro acc c
    rw [List.foldl_cons, ih]
    unfold uStep
    by_cases hz : z ∈ acc
    · rw [if_pos hz]
      constructor
      · rintro (h | h)
        · exact Or.inl h
        · exact Or.inr (List.mem_cons_of_mem z h)
      · rintro (h | h)
        · exact Or.inl h
        · rcases List.mem_cons.mp h with h1 | h1
          · exact Or.inl (h1 ▸ hz)
          · exact Or.inr h1
    · rw [if_neg hz]
      simp only [List.mem_append, List.mem_singleton, List.mem_cons]
      tauto

theorem mem_uniqueInOrder (xs : List Nat) (c : Nat) :
    c ∈ uniqueInOrder xs ↔ c ∈ xs := by
  rw [uniqueInOrder, mem_foldl_uStep]
  simp

theorem nodup_uniqueInOrder (xs : List Nat) : (uniqueInOrder xs).Nodup := by
  have h : ∀ (ys acc : List Nat), acc.Nodup → (ys.foldl uStep acc).Nodup := by
    intro ys
    induction ys with
    | nil => intro acc h; exact h
    | cons z rest ih =>
      intro acc h
      rw [List.foldl_cons]
      apply ih
      unfold uStep
      by_cases hz : z ∈ acc
      · rwa [if_pos hz]
      · rw [if_neg hz, List.nodup_append]
        exact ⟨h, List.nodup_singleton z, by simpa using hz⟩
  exact h xs [] List.nodup_nil

theorem firstIndex_append_left (u : List Nat) (t : List Nat) (z : Nat) (h : z ∈ u) :
    firstIndex (u ++ t) z = firstIndex u z := by
  induction u with
  | nil => cases h
  | cons a rest ih =>
    by_cases ha : a = z
    · simp [firstIndex, ha]
    · have hz : z ∈ rest := by
        rcases List.mem_cons.mp h with h1 | h1
        · exact absurd h1.symm ha
        · exact h1
      simp [firstIndex, ha, ih hz]

theorem firstIndex_lt_length (u : List Nat) (z : Nat) (h : z ∈ u) :
    firstIndex u z < u.length := by
  induction u with
  | nil => cases h
  | cons a rest ih =>
    by_cases ha : a = z
    · simp [firstIndex, ha]
    · have hz : z ∈ rest := by
        rcases List.mem_cons.mp h with h1 | h1
        · exact absurd h1.symm ha
        · exact h1
      simp only [firstIndex, ha, if_neg, List.length_cons, if_false]
      exact Nat.succ_lt_succ (ih hz)

theorem firstIndex_append_self (u : List Nat) (z : Nat) (h : z ∉ u) :
    firstIndex (u ++ [z]) z = u.length := by
  induction u with
  | nil => simp [firstIndex]
  | cons a rest ih =>
    have ha : ¬ a = z := fun he => h (by simp [he])
    have h2 : z ∉ rest := fun hr => h (List.mem_cons_of_mem a hr)
    simp [firstIndex, ha, ih h2]

theorem firstIndex_get (u : List Nat) (hnd : u.Nodup) :
    ∀ (j : Nat) (h : j < u.length), firstIndex u (u.get ⟨j, h⟩) = j := by
  induction u with
  | nil => intro j h; simp at h
  | cons a rest ih =>
    intro j h
    cases j with
    | zero => simp [firstIndex]
    | succ j =>
      have hnd' : rest.Nodup := (List.nodup_cons.mp hnd).2
      have hj : j < rest.length := by simpa using Nat.lt_of_succ_lt_succ h
      have hmem : rest.get ⟨j, hj⟩ ∈ rest := List.get_mem rest j hj
      have ha : ¬ a = rest.get ⟨j, hj⟩ := by
        intro he
        exact (List.nodup_cons.mp hnd).1 (he ▸ hmem)
      simp only [List.get_cons_succ, firstIndex, ha, if_false]
      rw [ih hnd' j hj]

theorem length_le_of_nodup_lt (u : List Nat) (K : Nat) (hnd : u.Nodup)
    (hlt : ∀ x ∈ u, x < K) : u.length ≤ K := by
  classical
  have hsub : u.toFinset ⊆ Finset.range K := by
    intro x hx
    rw [List.mem_toFinset] at hx
    exact Finset.mem_range.mpr (hlt x hx)
  have hc := Finset.card_le_card hsub
  rwa [List.toFinset_card_of_nodup hnd, Finset.card_range] at hc

/-! ## `getD`/`set` helpers for the reindex array -/

theorem getD_set_self (l : List Int) (i : Nat) (v d : Int) (h : i < l.length) :
    (l.set i v).getD i d = v := by
  simp [List.getD_eq_getElem?_getD, List.getElem?_set_self, h]

theorem getD_set_ne (l : List Int) (i j : Nat) (v d : Int) (h : i ≠ j) :
    (l.set i v).getD j d = l.getD j d := by
  simp [List.getD_eq_getElem?_getD, List.getElem?_set_ne, h]

theorem getD_replicate_self (K : Nat) (v : Int) (c : Nat) :
    (List.replicate K v).getD c v = v := by
  by_cases h : c < K
  · simp [List.getD_eq_getElem?_getD, List.getElem?_replicate, h]
  · have : (List.replicate K v)[c]? = none := by
      rw [List.getElem?_eq_none]
      simpa using Nat.le_of_not_lt h
    simp [List.getD_eq_getElem?_getD, this]

/-! ## The relabeling pass computes first-appearance dense ids -/

theorem relabel_loop (state : List Cluster) (K : Nat) :
    ∀ (rest pre : List Nat) (ret : List Cluster) (reindex : List Int) (maxID : Int),
      (∀ x ∈ rest, x < K) →
      reindex.length = K →
      (∀ c : Nat, reindex.getD c (-1) =
        if c ∈ uniqueInOrder pre then (firstIndex (uniqueInOrder pre) c : Int) else -1) →
      maxID = ((uniqueInOrder pre).length : Int) →
      (rest.foldl (relabelStep state) (ret, reindex, maxID)).1 =
        ret ++ rest.map (fun z =>
          { getC state z with id := (firstIndex (uniqueInOrder (pre ++ rest)) z : Int) }) := by
  intro rest
  induction rest with
  | nil =>
    intro pre ret reindex maxID _ _ _ _
    simp
  | cons z rest ih =>
    intro pre ret reindex maxID hlt hlen hinv hmax
    rw [List.foldl_cons]
    have hz_lt : z < K := hlt z (List.mem_cons_self z rest)
    have hlt' : ∀ x ∈ rest, x < K := fun x hx => hlt x (List.mem_cons_of_mem z hx)
    have happ : pre ++ z :: rest = (pre ++ [z]) ++ rest := by simp
    by_cases hz : z ∈ uniqueInOrder pre
    · -- the cluster id was seen before: reuse its dense id
      have hcid : reindex.getD z (-1) = (firstIndex (uniqueInOrder pre) z : Int) := by
        rw [hinv z, if_pos hz]
      have hstep : relabelStep state (ret, reindex, maxID) z =
          (ret ++ [{ getC state z with id := (firstIndex (uniqueInOrder pre) z : Int) }],
            reindex, maxID) := by
        unfold relabelStep
        dsimp only
        rw [hcid, if_neg (not_lt.mpr (Int.natCast_nonneg _))]
      have hu : uniqueInOrder (pre ++ [z]) = uniqueInOrder pre := by
        rw [uniqueInOrder_snoc]; unfold uStep; rw [if_pos hz]
      rw [hstep, ih (pre ++ [z]) _ _ _ hlt' hlen
        (by rw [hu]; exact hinv) (by rw [hu]; exact hmax)]
      have hfz : firstIndex (uniqueInOrder (pre ++ z :: rest)) z
          = firstIndex (uniqueInOrder pre) z := by
        rw [happ]
        obtain ⟨t2, ht2⟩ := uniqueInOrder_extends (pre ++ [z]) rest
        rw [ht2, hu]
        exact firstIndex_append_left _ t2 z hz
      rw [← happ]
      simp only [List.map_cons]
      rw [hfz]
      simp [List.append_assoc]
    · -- first appearance: assign the next fresh dense id
      have hcid : reindex.getD z (-1) = -1 := by rw [hinv z, if_neg hz]
      have hstep : relabelStep state (ret, reindex, maxID) z =
          (ret ++ [{ getC state z with id := maxID }],
            reindex.set z maxID, maxID + 1) := by
        unfold relabelStep
        dsimp only
        rw [hcid, if_pos (by norm_num : (-1 : Int) < 0)]
      have hu : uniqueInOrder (pre ++ [z]) = uniqueInOrder pre ++ [z] := by
        rw [uniqueInOrder_snoc]; unfold uStep; rw [if_neg hz]
      have hzmem : z ∈ uniqueInOrder (pre ++ [z]) := by
        rw [hu]
        exact List.mem_append_right _ (List.mem_singleton.mpr rfl)
      have hinv' : ∀ c : Nat, (reindex.set z maxID).getD c (-1) =
          if c ∈ uniqueInOrder (pre ++ [z])
            then (firstIndex (uniqueInOrder (pre ++ [z])) c : Int) else -1 := by
        intro c
        by_cases hc : z = c
        · subst hc
          rw [getD_set_self _ _ _ _ (by rw [hlen]; exact hz_lt), if_pos hzmem, hu,
            firstIndex_append_self _ z hz, hmax]
        · rw [getD_set_ne _ _ _ _ _ hc, hinv c, hu]
          by_cases hcp : c ∈ uniqueInOrder pre
          · rw [if_pos hcp, if_pos (List.mem_append_left _ hcp),
              firstIndex_append_left _ _ c hcp]
          · have hnotin : c ∉ uniqueInOrder pre ++ [z] := by
              intro hmem
              rcases List.mem_append.mp hmem with h1 | h1
              · exact hcp h1
              · exact hc (List.mem_singleton.mp h1).symm
            rw [if_neg hcp, if_neg hnotin]
      have hmax' : maxID + 1 = ((uniqueInOrder (pre ++ [z])).length : Int) := by
        rw [hu, List.length_append]
        push_cast
        rw [hmax]
        simp
      rw [hstep, ih (pre ++ [z]) _ _ _ hlt'
        (by rw [List.length_set]; exact hlen) hinv' hmax']
      have hfz : (firstIndex (uniqueInOrder (pre ++ z :: rest)) z : Int) = maxID := by
        rw [happ]
        obtain ⟨t2, ht2⟩ := uniqueInOrder_extends (pre ++ [z]) rest
        rw [ht2, firstIndex_append_left _ t2 z hzmem, hu,
          firstIndex_append_self _ z hz, hmax]
      rw [← happ]
      simp only [List.map_cons]
      rw [hfz]
      simp [List.append_assoc]

/-- With in-range internal ids, the relabeling pass maps each assignment to
a snapshot of its cluster carrying the index of the cluster's first
appearance in the assignment vector. -/
theorem relabel_eq_map (state : List Cluster) (K : Nat) (dz : List Nat)
    (hlt : ∀ x ∈ dz, x < K) :
    relabel state K dz = dz.map (fun z =>
      { getC state z with id := (firstIndex (uniqueInOrder dz) z : Int) }) := by
  unfold relabel
  have h := relabel_loop state K dz [] [] (List.replicate K (-1)) 0 hlt
    (List.length_replicate K (-1))
    (by
      intro c
      rw [getD_replicate_self]
      have : uniqueInOrder ([] : List Nat) = [] := rfl
      rw [this]
      simp)
    (by simp [uniqueInOrder])
  simpa using h

/-! ## Assignment-vector invariants of the driver -/

theorem initFold_dz {σ : Type} (smp : Sampler σ) (probs : List ℚ) (K : Nat)
    (hK : ∀ (s : σ) (p : List ℚ), (smp.Sample s p).1 < K) :
    ∀ (docs : List Document) (st : List Cluster) (dz : List Nat) (s : σ),
      ((docs.foldl (initStep smp probs) (st, dz, s)).2.1.length
        = dz.length + docs.length) ∧
      (∀ x ∈ (docs.foldl (initStep smp probs) (st, dz, s)).2.1, x ∈ dz ∨ x < K) := by
  intro docs
  induction docs with
  | nil => intro st dz s; exact ⟨by simp, fun x hx => Or.inl hx⟩
  | cons doc rest ih =>
    intro st dz s
    rw [List.foldl_cons]
    have hstep : initStep smp probs (st, dz, s) doc =
        (st.set (smp.Sample s probs).1 ((getC st (smp.Sample s probs).1).addDoc doc),
          dz ++ [(smp.Sample s probs).1], (smp.Sample s probs).2) := rfl
    rw [hstep]
    obtain ⟨hlen, hmem⟩ := ih
      (st.set (smp.Sample s probs).1 ((getC st (smp.Sample s probs).1).addDoc doc))
      (dz ++ [(smp.Sample s probs).1]) (smp.Sample s probs).2
    constructor
    · rw [hlen]
      simp
      omega
    · intro x hx
      rcases hmem x hx with h | h
      · rcases List.mem_append.mp h with h1 | h1
        · exact Or.inl h1
        · have hx1 := List.mem_singleton.mp h1
          exact Or.inr (hx1 ▸ hK s probs)
      · exact Or.inr h

theorem initClusters_dz {σ : Type} (docs : List Document) (K : Nat) (smp : Sampler σ)
    (s0 : σ) (hK : ∀ (s : σ) (p : List ℚ), (smp.Sample s p).1 < K) :
    (initClusters docs K smp s0).2.1.length = docs.length ∧
    ∀ x ∈ (initClusters docs K smp s0).2.1, x < K := by
  unfold initClusters
  obtain ⟨hlen, hmem⟩ := initFold_dz smp (List.replicate K (1 / (K : ℚ))) K hK docs
    (List.replicate K emptyCluster) [] s0
  refine ⟨by simpa using hlen, fun x hx => ?_⟩
  rcases hmem x hx with h | h
  · exact absurd h (List.not_mem_nil x)
  · exact h

theorem roundStep_dz {σ : Type} (score : ScoringFn) (smp : Sampler σ)
    (conf : ConfigParams) (docs : List Document) (K : Nat)
    (hK : ∀ (s : σ) (p : List ℚ), (smp.Sample s p).1 < K)
    (acc : List Cluster × List Nat × σ × Nat) (jd : Nat × Document) :
    ∃ z2, z2 < K ∧
      (roundStep score smp conf docs acc jd).2.1 = acc.2.1.set jd.1 z2 := by
  obtain ⟨st, dz, s, tr⟩ := acc
  exact ⟨_, hK _ _, rfl⟩

theorem roundFold_dz {σ : Type} (score : ScoringFn) (smp : Sampler σ)
    (conf : ConfigParams) (docs : List Document) (K : Nat)
    (hK : ∀ (s : σ) (p : List ℚ), (smp.Sample s p).1 < K) :
    ∀ (l : List (Nat × Document)) (st : List Cluster) (dz : List Nat) (s : σ) (tr : Nat),
      (∀ x ∈ dz, x < K) →
      ((l.foldl (roundStep score smp conf docs) (st, dz, s, tr)).2.1.length = dz.length ∧
        ∀ x ∈ (l.foldl (roundStep score smp conf docs) (st, dz, s, tr)).2.1, x < K) := by
  intro l
  induction l with
  | nil => intro st dz s tr h; exact ⟨rfl, h⟩
  | cons jd rest ih =>
    intro st dz s tr h
    rw [List.foldl_cons]
    obtain ⟨z2, hz2, hdz⟩ := roundStep_dz score smp conf docs K hK (st, dz, s, tr) jd
    rcases hX : roundStep score smp conf docs (st, dz, s, tr) jd with ⟨st2, dz2, s2, tr2⟩
    rw [hX] at hdz
    dsimp only at hdz
    have hmem2 : ∀ x ∈ dz2, x < K := by
      rw [hdz]
      intro x hx
      rcases List.mem_or_eq_of_mem_set hx with h1 | h1
      · exact h x h1
      · exact h1 ▸ hz2
    have hlen2 : dz2.length = dz.length := by rw [hdz, List.length_set]
    obtain ⟨hl, hm⟩ := ih st2 dz2 s2 tr2 hmem2
    exact ⟨hl.trans hlen2, hm⟩

theorem iterateAux_dz {σ : Type} (score : ScoringFn) (smp : Sampler σ)
    (conf : ConfigParams) (docs : List Document) (K : Nat)
    (hK : ∀ (s : σ) (p : List ℚ), (smp.Sample s p).1 < K) :
    ∀ (fuel i cc : Nat) (st : List Cluster) (dz : List Nat) (s : σ),
      (∀ x ∈ dz, x < K) →
      ((iterateAux score smp conf docs fuel i cc st dz s).2.1.length = dz.length ∧
        ∀ x ∈ (iterateAux score smp conf docs fuel i cc st dz s).2.1, x < K) := by
  intro fuel
  induction fuel with
  | zero => intro i cc st dz s h; exact ⟨rfl, h⟩
  | succ fuel ih =>
    intro i cc st dz s h
    rcases hX : doRound score smp conf docs st dz s with ⟨st2, dz2, s2, tr2⟩
    have hXf : docs.enum.foldl (roundStep score smp conf docs) (st, dz, s, 0)
        = (st2, dz2, s2, tr2) := hX
    obtain ⟨hfl, hfm⟩ := roundFold_dz score smp conf docs K hK docs.enum st dz s 0 h
    rw [hXf] at hfl hfm
    simp only [iterateAux, hX]
    split
    · exact ⟨hfl, hfm⟩
    · obtain ⟨hl, hm⟩ := ih (i + 1) (countClusters st2) st2 dz2 s2 hfm
      exact ⟨hl.trans hfl, hm⟩

theorem runClustering_dz {σ : Type} (score : ScoringFn) (smp : Sampler σ)
    (conf : ConfigParams) (docs : List Document) (s0 : σ)
    (hK : ∀ (s : σ) (p : List ℚ), (smp.Sample s p).1 < conf.K) :
    (runClustering score smp conf docs s0).2.length = docs.length ∧
    ∀ x ∈ (runClustering score smp conf docs s0).2, x < conf.K := by
  unfold runClustering
  rcases hI : initClusters docs conf.K smp s0 with ⟨st, dz, s⟩
  dsimp only
  have hinit := initClusters_dz docs conf.K smp s0 hK
  rw [hI] at hinit
  dsimp only at hinit
  obtain ⟨hlen, hmem⟩ := hinit
  rcases hJ : iterateAux score smp conf docs conf.Iter 0 conf.K st dz s with ⟨st2, dz2, s2, r⟩
  dsimp only
  have hiter := iterateAux_dz score smp conf docs conf.K hK conf.Iter 0 conf.K st dz s hmem
  rw [hJ] at hiter
  dsimp only at hiter
  exact ⟨hiter.1.trans hlen, hiter.2⟩

/-- Claim C3: on a valid config with an in-range sampler and a non-empty
corpus, `FindClusters` succeeds with one snapshot per document; the
snapshot ids are exactly the first-appearance indices of the final
assignments, they form the dense range `[0, M)` with
`M = |uniqueInOrder dzF| ≤ K`. -/
theorem findClusters_dense_ids {σ : Type} (docs : List Document) (conf : Config σ)
    (s0 : σ) (score : ScoringFn) (smp : Sampler σ)
    (hS : conf.Score = some score) (hP : conf.Sampler = some smp)
    (hK : ∀ (s : σ) (p : List ℚ), (smp.Sample s p).1 < conf.K)
    (_hne : docs ≠ []) :
    ∃ ret, FindClusters docs conf s0 = Except.ok ret ∧
      ret.length = docs.length ∧
      ret.map Cluster.id = (runClustering score smp conf.toConfigParams docs s0).2.map
        (fun z => (firstIndex
          (uniqueInOrder (runClustering score smp conf.toConfigParams docs s0).2) z : Int)) ∧
      (uniqueInOrder (runClustering score smp conf.toConfigParams docs s0).2).length
        ≤ conf.K ∧
      ∀ v : Int, v ∈ ret.map Cluster.id ↔ 0 ≤ v ∧
        v < ((uniqueInOrder
          (runClustering score smp conf.toConfigParams docs s0).2).length : Int) := by
  obtain ⟨hlen, hmem⟩ := runClustering_dz score smp conf.toConfigParams docs s0 hK
  rcases hR : runClustering score smp conf.toConfigParams docs s0 with ⟨stF, dzF⟩
  rw [hR] at hlen hmem
  dsimp only at hlen hmem ⊢
  have hFC : FindClusters docs conf s0 = Except.ok (relabel stF conf.K dzF) := by
    unfold FindClusters
    rw [hS, hP]
    dsimp only
    rw [hR]
  have hnd : (uniqueInOrder dzF).Nodup := nodup_uniqueInOrder dzF
  have hrel : relabel stF conf.K dzF = dzF.map (fun z =>
      { getC stF z with id := (firstIndex (uniqueInOrder dzF) z : Int) }) :=
    relabel_eq_map stF conf.K dzF hmem
  refine ⟨relabel stF conf.K dzF, hFC, ?_, ?_, ?_, ?_⟩
  · rw [hrel, List.length_map, hlen]
  · rw [hrel, List.map_map]
    rfl
  · exact length_le_of_nodup_lt (uniqueInOrder dzF) conf.K hnd
      (fun x hx => hmem x ((mem_uniqueInOrder dzF x).mp hx))
  · intro v
    constructor
    · intro hv
      rw [hrel, List.map_map] at hv
      obtain ⟨z, hz_mem, hz_eq⟩ := List.mem_map.mp hv
      have hzu : z ∈ uniqueInOrder dzF := (mem_uniqueInOrder dzF z).mpr hz_mem
      have h1 : firstIndex (uniqueInOrder dzF) z < (uniqueInOrder dzF).length :=
        firstIndex_lt_length _ z hzu
      have hz_eq' : ((firstIndex (uniqueInOrder dzF) z : Nat) : Int) = v := hz_eq
      constructor
      · rw [← hz_eq']; exact Int.natCast_nonneg _
      · rw [← hz_eq']; exact_mod_cast h1
    · rintro ⟨h0, hv⟩
      have hj : v.toNat < (uniqueInOrder dzF).length := by omega
      have hzu : (uniqueInOrder dzF).get ⟨v.toNat, hj⟩ ∈ uniqueInOrder dzF :=
        List.get_mem _ v.toNat hj
      have hz_mem : (uniqueInOrder dzF).get ⟨v.toNat, hj⟩ ∈ dzF :=
        (mem_uniqueInOrder dzF _).mp hzu
      have hfi : firstIndex (uniqueInOrder dzF) ((uniqueInOrder dzF).get ⟨v.toNat, hj⟩)
          = v.toNat := firstIndex_get _ hnd v.toNat hj
      rw [hrel, List.map_map]
      apply List.mem_map.mpr
      refine ⟨(uniqueInOrder dzF).get ⟨v.toNat, hj⟩, hz_mem, ?_⟩
      show ((firstIndex (uniqueInOrder dzF) _ : Nat) : Int) = v
      rw [hfi]
      omega

/-- Witness for C3 at a concrete one-document corpus. -/
theorem findClusters_dense_ids_witness :
    ∃ ret, FindClusters [[0]] sampleConfig () = Except.ok ret ∧ ret.length = 1 := by
  obtain ⟨ret, hok, hlen, _⟩ := findClusters_dense_ids [[0]] sampleConfig () sampleScore
    sampleSmp rfl rfl (fun _ _ => Nat.one_pos) (by decide)
  exact ⟨ret, hok, hlen⟩

end Dmmclust
